import Mathlib

/-!
Verification of the `ocf` orchestration engine: the `oc` platform-client
layer (existence checks, environment read/write, build creation) and the
service-binding convention layered on environment variables.

Strings are embedded as lists of characters; the Go standard-library
string helpers used by the source (`strings.Split`, `strings.Contains`,
`strings.HasPrefix`, `strings.Replace`, `strings.Join`, `strings.ToUpper`,
trimming) are given explicit executable definitions below.  Go maps are
embedded as association lists whose list order models the (unspecified)
iteration order of the map.
-/

namespace Ocf

/-- Characters of a string; the embedding of Go's `string`. -/
abbrev Str := List Char

/-- Convert a Lean string literal to the embedded representation. -/
def str (s : String) : Str := s.data

/-- Embedding of Go's `strings.HasPrefix`. -/
def goHasPrefix : Str → Str → Bool
  | [], _ => true
  | _ :: _, [] => false
  | p :: ps, c :: cs => p = c && goHasPrefix ps cs

/-- Embedding of Go's `strings.HasSuffix`. -/
def goHasSuffix (s sfx : Str) : Bool := goHasPrefix sfx.reverse s.reverse

/-- Embedding of Go's `strings.Contains` (substring test). -/
def goContains (s sub : Str) : Bool :=
  if goHasPrefix sub s then true
  else
    match s with
    | [] => false
    | _ :: t => goContains t sub

/-- `sub` occurs as a contiguous substring of `s` (propositional form). -/
def IsSubstring (sub s : Str) : Prop := ∃ a b, s = a ++ sub ++ b

/-- Embedding of Go's `strings.Split` with a one-character separator. -/
def goSplit (sep : Char) : Str → List Str
  | [] => [[]]
  | c :: rest =>
    if c = sep then [] :: goSplit sep rest
    else
      match goSplit sep rest with
      | [] => [[c]]
      | t :: ts => (c :: t) :: ts

/-- Embedding of Go's `strings.Join` with separator `" "`. -/
def joinSpace : List Str → Str
  | [] => []
  | [x] => x
  | x :: y :: r => x ++ ' ' :: joinSpace (y :: r)

/-- ASCII uppercase of one character, as Go's `strings.ToUpper` acts on
the ASCII service names used by the tool. -/
def upChar (c : Char) : Char :=
  if 'a' ≤ c ∧ c ≤ 'z' then Char.ofNat (c.toNat - 32) else c

/-- Replace `'-'` by `'_'` in one character, the per-character action of
`strings.Replace(s, "-", "_", -1)`. -/
def dashToUnderscore (c : Char) : Char := if c = '-' then '_' else c

/-- Binding prefix of a service name:
`strings.ToUpper(strings.Replace(service, "-", "_", -1))`
(from `envForServices` in `pkg/app/app.go`). -/
def envPrefixOf (service : Str) : Str := (service.map dashToUnderscore).map upChar

/-- Drop leading spaces (Go's `strings.TrimLeft(s, " ")`). -/
def trimLeftSp : Str → Str
  | [] => []
  | c :: r => if c = ' ' then trimLeftSp r else c :: r

/-- Drop surrounding spaces (Go's `strings.Trim(s, " ")`). -/
def trimSp (s : Str) : Str := ((trimLeftSp s.reverse).reverse : Str) |> trimLeftSp

/-- Length of a prefix is at most the length of the whole. -/
theorem goHasPrefix_length_le : ∀ p s : Str, goHasPrefix p s = true → p.length ≤ s.length := by
  intro p
  induction p with
  | nil => intro s _; simp
  | cons a ps ih =>
    intro s h
    cases s with
    | nil => simp [goHasPrefix] at h
    | cons c cs =>
      simp only [goHasPrefix, Bool.and_eq_true] at h
      simpa using Nat.succ_le_succ (ih cs h.2)

/-- Embedding of Go's `strings.Replace(s, old, new, -1)` for nonempty `old`. -/
def goReplaceAll (old new : Str) (s : Str) : Str :=
  if h : old = [] then s
  else
    if hp : goHasPrefix old s = true then
      have hlen : old.length ≤ s.length := goHasPrefix_length_le old s hp
      have hpos : 0 < old.length := by
        cases old with
        | nil => exact absurd rfl h
        | cons _ _ => simp
      new ++ goReplaceAll old new (s.drop old.length)
    else
      match s with
      | [] => []
      | c :: t => c :: goReplaceAll old new t
termination_by s.length
decreasing_by
  · simp only [List.length_drop]
    omega
  · simp

/-- An environment map: association list whose order models Go map
iteration order. -/
abbrev EnvMap := List (Str × Str)

/-- First-match lookup in an environment map. -/
def lookupEnv : EnvMap → Str → Option Str
  | [], _ => none
  | (k, v) :: r, key => if k = key then some v else lookupEnv r key

/-- Lookup with Go's map zero value `""` for a missing key. -/
def lookupEnvD (m : EnvMap) (key : Str) : Str := (lookupEnv m key).getD []

/-- Map assignment `m[k] = v`: replace an existing entry or append. -/
def mapInsert : EnvMap → Str → Str → EnvMap
  | [], k, v => [(k, v)]
  | (k', v') :: r, k, v => if k' = k then (k, v) :: r else (k', v') :: mapInsert r k v

/-- Remove a key from an environment map. -/
def mapErase (m : EnvMap) (k : Str) : EnvMap := m.filter (fun kv => kv.1 ≠ k)

/-- Apply one `SetEnv` delta to a stored environment: a value equal to the
deletion marker `"-"` removes the key, any other value sets it. -/
def applyDelta (env delta : EnvMap) : EnvMap :=
  delta.foldl (fun e kv => if kv.2 = str "-" then mapErase e kv.1 else mapInsert e kv.1 kv.2) env

/-- Combined output and success/failure of one spawned external command
(`CombinedOutput` of the command-execution abstraction). -/
structure CmdResult where
  out : Str
  err : Option Str
deriving DecidableEq

end Ocf

namespace Ocf

/-! ## The `oc` platform-client layer (from `pkg/oc/oc.go`) -/

/-- The formatted error of `DefaultOc.Exists`. -/
def existsErrMsg (objType name output : Str) : Str :=
  str "Error getting " ++ objType ++ str " " ++ name ++ str ": " ++ output ++ str "\n"

/-- `DefaultOc.Exists`: run `get <objType> <name>`; if the combined output
contains `"not found"` return `(false, nil)`; otherwise a command error
yields `(false, formattedError)`; otherwise `(true, nil)`. -/
def ocExists (objType name : Str) (r : CmdResult) : Bool × Option Str :=
  if goContains r.out (str "not found") then (false, none)
  else
    match r.err with
    | some _ => (false, some (existsErrMsg objType name r.out))
    | none => (true, none)

/-- One line of `oc env --list` output: split on `"="`; exactly two parts
become a map entry, any other split count is skipped
(`DefaultOc.Env` loop body). -/
def parseLineStep (env : EnvMap) (line : Str) : EnvMap :=
  let split := goSplit '=' line
  if split.length = 2 then mapInsert env (split.getD 0 []) (split.getD 1 []) else env

/-- Fold `parseLineStep` over a list of lines starting from the empty map. -/
def parseLines (lines : List Str) : EnvMap := lines.foldl parseLineStep []

/-- Parse the whole combined output of `oc env --list` line by line. -/
def parseEnvOutput (out : Str) : EnvMap := parseLines (goSplit '\n' out)

/-- `DefaultOc.Env`: command failure maps to a "not found" error naming the
type and name; success parses the combined output. -/
def ocEnv (objType name : Str) (r : CmdResult) : Except Str EnvMap :=
  match r.err with
  | some _ => .error (str "Error: " ++ objType ++ str " " ++ name ++ str " not found\n")
  | none => .ok (parseEnvOutput r.out)

/-- Encoding of one environment pair as a command argument: `KEY=VALUE`, or
`KEY-` when the value is the deletion marker `"-"` (`envToSlice`). -/
def envArg (key value : Str) : Str :=
  if value = str "-" then key ++ value else key ++ str "=" ++ value

/-- `envToSlice`: encode every pair of an environment map. -/
def envToSlice (env : EnvMap) : List Str := env.map (fun kv => envArg kv.1 kv.2)

/-- Argument vector of `DefaultOc.SetEnv`. -/
def setEnvArgs (objType name : Str) (env : EnvMap) : List Str :=
  [str "env", objType, name] ++ envToSlice env

/-- Argument vector of `DefaultOc.NewBuild`. -/
def newBuildArgs (image name : Str) (env : EnvMap) : List Str :=
  [str "new-build", image, str "--binary=true", str "--name=" ++ name] ++ envToSlice env

/-- `DefaultOc.NewBuild`: runs the build-creation command, logs its output,
and returns `nil` regardless of the command's own result (the external tool
returns non-zero exit status for benign conditions on this call).  The
result records the arguments used, the logged output, and the returned
error, which is always `none`. -/
def ocNewBuild (image name : Str) (env : EnvMap) (r : CmdResult) :
    List Str × Str × Option Str :=
  (newBuildArgs image name env, r.out, none)

end Ocf

namespace Ocf

/-! ## The orchestrator layer (from `pkg/app/app.go`) -/

/-- Label classification of one `env --list` line in `envForServices`:
a line starting with a known database family marker overwrites the label
accumulated so far. -/
def svcLineLabel (label line : Str) : Str :=
  if goHasPrefix (str "POSTGRESQL") line then str "postgresql"
  else if goHasPrefix (str "MYSQL") line then str "mysql"
  else if goHasPrefix (str "MONGODB") line then str "mongodb"
  else label

/-- `addServiceEnv`: append `prefix ++ suffix ++ "=" ++ strings.Split(line, "=")[1]`.
The callers guard with a `Contains "...="` test, so index 1 exists there. -/
def addServiceEnv (env : List Str) (pfx suffix line : Str) : List Str :=
  env ++ [pfx ++ suffix ++ str "=" ++ (goSplit '=' line).getD 1 []]

/-- Credential classification of one line in `envForServices`: the first
matching of the `_USER=` / `_PASSWORD=` / `_DATABASE=` substring tests
appends one derived entry. -/
def svcLineEnv (env : List Str) (pfx line : Str) : List Str :=
  if goContains line (str "_USER=") then addServiceEnv env pfx (str "_USER") line
  else if goContains line (str "_PASSWORD=") then addServiceEnv env pfx (str "_PASSWORD") line
  else if goContains line (str "_DATABASE=") then addServiceEnv env pfx (str "_DATABASE") line
  else env

/-- One iteration of the line loop of `envForServices`: update the label
and the accumulated entries from one line. -/
def svcLineStep (pfx : Str) (acc : Str × List Str) (line : Str) : Str × List Str :=
  (svcLineLabel acc.1 line, svcLineEnv acc.2 pfx line)

/-- The entries contributed by one service in `envForServices`: the
credential entries in line order followed by the `{pfx}_LABEL` entry. -/
def serviceEnvEntries (pfx output : Str) : List Str :=
  let r := (goSplit '\n' output).foldl (svcLineStep pfx) ([], [])
  r.2 ++ [pfx ++ str "_LABEL=" ++ r.1]

/-- The service loop of `envForServices`, accumulating derived entries and
the collected prefixes; a failed `env dc <service> --list` command aborts
with the "Bound service not found" error. -/
def envForServicesLoop (run : Str → CmdResult) :
    List Str → List Str → List Str → Except Str (List Str × List Str)
  | [], env, names => .ok (env, names)
  | service :: rest, env, names =>
    let pfx := envPrefixOf service
    match (run service).err with
    | some _ => .error (str "Error: Bound service " ++ service ++ str " not found\n")
    | none =>
      envForServicesLoop run rest (env ++ serviceEnvEntries pfx (run service).out)
        (names ++ [pfx])

/-- `envForServices` (`pkg/app/app.go`): empty `Services` yields no
entries; otherwise the per-service entries in list order followed by one
final `CF_BOUND_SERVICES=<space-joined prefixes>` entry.  `run` gives the
combined output and result of `env dc <service> --list` per service. -/
def envForServices (services : List Str) (run : Str → CmdResult) : Except Str (List Str) :=
  if services = [] then .ok []
  else
    match envForServicesLoop run services [] [] with
    | .error e => .error e
    | .ok (env, names) => .ok (env ++ [str "CF_BOUND_SERVICES=" ++ joinSpace names])

end Ocf

namespace Ocf

/-! ## Service binding and unbinding

The `BindService` / `UnbindService` workflows and the exists-branch of
`ensureBuildExists` live in a part of the repository whose source is not
included here; only their tests and command-line callers are.  They are
modelled from the specification below. -/

/-- Modelled from the spec: `boundPrefixes` splits the `CF_BOUND_SERVICES`
value on whitespace; an empty or missing key yields an empty sequence.
`tokensAux` carries the current word (reversed) while scanning. -/
def tokensAux : Str → Str → List Str
  | [], w => if w = [] then [] else [w.reverse]
  | c :: rest, w =>
    if c = ' ' then
      if w = [] then tokensAux rest [] else w.reverse :: tokensAux rest []
    else tokensAux rest (c :: w)

/-- Modelled from the spec: the whitespace-delimited tokens of a
`CF_BOUND_SERVICES` value. -/
def tokens (s : Str) : List Str := tokensAux s []

/-- Boolean membership of a string in a list of strings. -/
def memStr (x : Str) : List Str → Bool
  | [] => false
  | y :: r => x = y || memStr x r

/-- Modelled from the spec: the boundary-aware check of `BindService`,
true iff `p` occurs as a whitespace-delimited token of `v` (not a plain
substring test). -/
def containsToken (v p : Str) : Bool := memStr p (tokens v)

/-- Modelled from the spec: `deriveBindingEnv`'s credential-copying pass:
for each source key ending in `_USER`, `_PASSWORD` or `_DATABASE`, copy
its value to the namespaced key, later entries overwriting earlier ones. -/
def credStep (pfx : Str) (acc : EnvMap) (kv : Str × Str) : EnvMap :=
  if goHasSuffix kv.1 (str "_USER") then mapInsert acc (pfx ++ str "_USER") kv.2
  else if goHasSuffix kv.1 (str "_PASSWORD") then mapInsert acc (pfx ++ str "_PASSWORD") kv.2
  else if goHasSuffix kv.1 (str "_DATABASE") then mapInsert acc (pfx ++ str "_DATABASE") kv.2
  else acc

/-- Modelled from the spec: `deriveBindingEnv`'s label pass: classify each
source key by known family marker prefixes; the most recent match during
the scan wins, the empty string when no family matched. -/
def labelOf (src : EnvMap) : Str :=
  src.foldl (fun l kv =>
    if goHasPrefix (str "POSTGRESQL") kv.1 then str "postgresql"
    else if goHasPrefix (str "MYSQL") kv.1 then str "mysql"
    else if goHasPrefix (str "MONGODB") kv.1 then str "mongodb"
    else l) []

/-- Modelled from the spec: `deriveBindingEnv(serviceEnvironment, prefix)`:
the copied credential keys plus the single `{prefix}_LABEL` entry. -/
def deriveBindingEnv (src : EnvMap) (pfx : Str) : EnvMap :=
  mapInsert (src.foldl (credStep pfx) []) (pfx ++ str "_LABEL") (labelOf src)

/-- Outcome of a binding operation: the returned error (if any), the
deployment environment afterwards, and the `SetEnv` deltas written. -/
structure OpResult where
  err : Option Str
  env : EnvMap
  writes : List EnvMap
deriving DecidableEq

/-- The `CF_BOUND_SERVICES` aggregate key. -/
def boundServicesKey : Str := str "CF_BOUND_SERVICES"

/-- Modelled from the spec: `BindService(service)` against an application
whose deployment-config existence is `dcExists`, whose current deployment
environment is `appEnv`, where `svcEnv` is the result of reading the
target service's own deployment environment.  Requires the deployment to
exist; guards against an already-bound prefix with the boundary-aware
token check; otherwise appends the prefix to the bound-services string
(left-trimmed of a leading separator), merges the derived binding keys and
the updated `CF_BOUND_SERVICES` into one delta, and writes it in a single
`SetEnv` call. -/
def bindService (dcExists : Bool) (svcEnv : Except Str EnvMap) (appEnv : EnvMap)
    (service : Str) : OpResult :=
  if ¬dcExists then ⟨some (str "application not found"), appEnv, []⟩
  else
    match svcEnv with
    | .error e => ⟨some e, appEnv, []⟩
    | .ok sEnv =>
      let pfx := envPrefixOf service
      let bound := lookupEnvD appEnv boundServicesKey
      if containsToken bound pfx then ⟨some (str "service already bound"), appEnv, []⟩
      else
        let newBound := trimLeftSp (bound ++ ' ' :: pfx)
        let delta := mapInsert (deriveBindingEnv sEnv pfx) boundServicesKey newBound
        ⟨none, applyDelta appEnv delta, [delta]⟩

/-- Modelled from the spec: `UnbindService(service)`: requires the
deployment to exist; if the prefix is not found as a substring of the
current `CF_BOUND_SERVICES` value, errors "service not bound" with no
write; otherwise writes one delta setting every existing key starting with
the prefix to the deletion marker and setting `CF_BOUND_SERVICES` to the
current value with the prefix substring removed and surrounding whitespace
trimmed. -/
def unbindService (dcExists : Bool) (appEnv : EnvMap) (service : Str) : OpResult :=
  if ¬dcExists then ⟨some (str "application not found"), appEnv, []⟩
  else
    let pfx := envPrefixOf service
    let bound := lookupEnvD appEnv boundServicesKey
    if ¬goContains bound pfx then ⟨some (str "service not bound"), appEnv, []⟩
    else
      let deletions := appEnv.filterMap
        (fun kv => if goHasPrefix pfx kv.1 then some (kv.1, str "-") else none)
      let newBound := trimSp (goReplaceAll pfx [] bound)
      let delta := mapInsert deletions boundServicesKey newBound
      ⟨none, applyDelta appEnv delta, [delta]⟩

/-- The `BUILDPACK_URL` key. -/
def buildpackUrlKey : Str := str "BUILDPACK_URL"

/-- Modelled from the spec: the branch of `ensureBuildExists` taken when
the build config already exists: read its current environment, compare
`BUILDPACK_URL` against the application's buildpack, and write an updated
environment only if the value changed.  The result is the list of `SetEnv`
deltas issued. -/
def ensureBuildExistsWhenPresent (buildpack : Str) (currentEnv : EnvMap) : List EnvMap :=
  if lookupEnvD currentEnv buildpackUrlKey = buildpack then []
  else [[(buildpackUrlKey, buildpack)]]

end Ocf

namespace Ocf

/-! ## Lemmas about the embedded string operations -/

/-- `goHasPrefix` decides the existence of an append decomposition. -/
theorem goHasPrefix_iff : ∀ p s : Str, goHasPrefix p s = true ↔ ∃ t, s = p ++ t := by
  intro p
  induction p with
  | nil => intro s; simp [goHasPrefix]
  | cons a ps ih =>
    intro s
    cases s with
    | nil =>
      simp only [goHasPrefix]
      constructor
      · intro h; cases h
      · rintro ⟨t, ht⟩; cases ht
    | cons c cs =>
      simp only [goHasPrefix, Bool.and_eq_true, decide_eq_true_eq, ih]
      constructor
      · rintro ⟨rfl, t, rfl⟩; exact ⟨t, rfl⟩
      · rintro ⟨t, ht⟩
        injection ht with h1 h2
        exact ⟨h1.symm, t, h2⟩

/-- `goHasSuffix` decides the existence of an append decomposition. -/
theorem goHasSuffix_iff (s sfx : Str) : goHasSuffix s sfx = true ↔ ∃ y, s = y ++ sfx := by
  unfold goHasSuffix
  rw [goHasPrefix_iff]
  constructor
  · rintro ⟨t, ht⟩
    refine ⟨t.reverse, ?_⟩
    have := congrArg List.reverse ht
    simpa using this
  · rintro ⟨y, rfl⟩
    exact ⟨y.reverse, by simp⟩

/-- `goContains` decides the substring relation. -/
theorem goContains_iff : ∀ s sub : Str, goContains s sub = true ↔ IsSubstring sub s := by
  intro s
  induction s with
  | nil =>
    intro sub
    rw [goContains]
    constructor
    · intro h
      split at h
      · rename_i hp
        obtain ⟨t, ht⟩ := (goHasPrefix_iff sub []).1 hp
        exact ⟨[], t, by simpa using ht⟩
      · cases h
    · rintro ⟨a, b, hab⟩
      have ha : a = [] := by cases a <;> simp_all
      have hs : sub = [] := by subst ha; cases sub <;> simp_all
      simp [hs, goHasPrefix]
  | cons c t ih =>
    intro sub
    rw [goContains]
    constructor
    · intro h
      split at h
      · rename_i hp
        obtain ⟨u, hu⟩ := (goHasPrefix_iff sub (c :: t)).1 hp
        exact ⟨[], u, by simpa using hu⟩
      · obtain ⟨a, b, hab⟩ := (ih sub).1 h
        exact ⟨c :: a, b, by simp [hab]⟩
    · rintro ⟨a, b, hab⟩
      split
      · rfl
      · rename_i hp
        cases a with
        | nil =>
          exact absurd ((goHasPrefix_iff sub (c :: t)).2 ⟨b, by simpa using hab⟩) hp
        | cons a0 a' =>
          injection hab with h1 h2
          exact (ih sub).2 ⟨a', b, h2⟩

/-- `goSplit` never returns the empty list. -/
theorem goSplit_ne_nil (sep : Char) : ∀ s : Str, goSplit sep s ≠ [] := by
  intro s
  cases s with
  | nil => simp [goSplit]
  | cons c rest =>
    rw [goSplit]
    split
    · simp
    · split
      · simp
      · simp

/-- Splitting a string that starts with a separator-free chunk followed by
the separator yields that chunk as the first part. -/
theorem goSplit_append_sep (sep : Char) :
    ∀ x y : Str, sep ∉ x → goSplit sep (x ++ sep :: y) = x :: goSplit sep y := by
  intro x
  induction x with
  | nil =>
    intro y _
    simp [goSplit]
  | cons c x' ih =>
    intro y hx
    have hc : ¬c = sep := fun h => hx (h ▸ List.mem_cons_self c x')
    have hx' : sep ∉ x' := fun h => hx (List.mem_cons_of_mem c h)
    rw [List.cons_append, goSplit, if_neg hc, ih y hx']

/-- Splitting a separator-free string yields that string as the only part. -/
theorem goSplit_no_sep (sep : Char) : ∀ x : Str, sep ∉ x → goSplit sep x = [x] := by
  intro x
  induction x with
  | nil => intro _; rfl
  | cons c x' ih =>
    intro hx
    have hc : ¬c = sep := fun h => hx (h ▸ List.mem_cons_self c x')
    have hx' : sep ∉ x' := fun h => hx (List.mem_cons_of_mem c h)
    rw [goSplit, if_neg hc, ih hx']

/-- `memStr` decides list membership. -/
theorem memStr_iff (x : Str) : ∀ l : List Str, memStr x l = true ↔ x ∈ l := by
  intro l
  induction l with
  | nil => simp [memStr]
  | cons y r ih => simp [memStr, ih, List.mem_cons]

/-- The token scan distributes over a separator: scanning `a ++ " " ++ b`
emits the tokens of `a` (with the carried word) and then those of `b`. -/
theorem tokensAux_append (b : Str) :
    ∀ (a w : Str), tokensAux (a ++ ' ' :: b) w = tokensAux a w ++ tokens b := by
  intro a
  induction a with
  | nil =>
    intro w
    show tokensAux (' ' :: b) w = tokensAux [] w ++ tokens b
    simp only [tokensAux, tokens]
    by_cases hw : w = [] <;> simp [hw]
  | cons c a' ih =>
    intro w
    show tokensAux (c :: (a' ++ ' ' :: b)) w = tokensAux (c :: a') w ++ tokens b
    simp only [tokensAux]
    by_cases hc : c = ' '
    · simp only [if_pos hc]
      by_cases hw : w = []
      · simp only [if_pos hw, ih]
      · simp only [if_neg hw, ih, List.cons_append]
    · simp only [if_neg hc, ih]

/-- Tokens of `a ++ " " ++ b` are the tokens of `a` followed by those of `b`. -/
theorem tokens_append (a b : Str) : tokens (a ++ ' ' :: b) = tokens a ++ tokens b :=
  tokensAux_append b a []

/-- Dropping leading spaces does not change the token list. -/
theorem tokens_trimLeftSp : ∀ s : Str, tokens (trimLeftSp s) = tokens s := by
  intro s
  induction s with
  | nil => rfl
  | cons c r ih =>
    rw [trimLeftSp]
    split
    · rename_i hc
      subst hc
      rw [ih]
      show tokens r = tokensAux (' ' :: r) []
      rw [tokensAux]
      simp [tokens]
    · rfl

/-- Scanning a space-free string just extends the carried word. -/
theorem tokensAux_no_space : ∀ (w acc : Str), ' ' ∉ w →
    tokensAux w acc = tokensAux [] (w.reverse ++ acc) := by
  intro w
  induction w with
  | nil => intro acc _; simp
  | cons c w' ih =>
    intro acc hw
    have hc : ¬c = ' ' := fun h => hw (h ▸ List.mem_cons_self c w')
    have hw' : ' ' ∉ w' := fun h => hw (List.mem_cons_of_mem c h)
    simp only [tokensAux, if_neg hc]
    rw [ih (c :: acc) hw']
    simp [tokensAux]

/-- A nonempty space-free string is its own single token. -/
theorem tokens_single (w : Str) (hw : w ≠ []) (hsp : ' ' ∉ w) : tokens w = [w] := by
  rw [tokens, tokensAux_no_space w [] hsp]
  rw [tokensAux]
  simp [hw]

end Ocf

namespace Ocf

/-! ## Lemmas about environment maps -/

/-- Looking up the key just assigned yields the assigned value. -/
theorem lookupEnv_mapInsert_self : ∀ (m : EnvMap) (k v : Str),
    lookupEnv (mapInsert m k v) k = some v := by
  intro m
  induction m with
  | nil => intro k v; simp [mapInsert, lookupEnv]
  | cons kv r ih =>
    intro k v
    obtain ⟨k', v'⟩ := kv
    rw [mapInsert]
    split
    · simp [lookupEnv]
    · rename_i hne
      rw [lookupEnv, if_neg hne, ih]

/-- Assigning one key leaves lookups of other keys unchanged. -/
theorem lookupEnv_mapInsert_ne : ∀ (m : EnvMap) (k v key : Str), key ≠ k →
    lookupEnv (mapInsert m k v) key = lookupEnv m key := by
  intro m
  induction m with
  | nil => intro k v key h; simp [mapInsert, lookupEnv, Ne.symm h]
  | cons kv r ih =>
    intro k v key h
    obtain ⟨k', v'⟩ := kv
    rw [mapInsert]
    split
    · rename_i he
      subst he
      simp [lookupEnv, Ne.symm h]
    · rw [lookupEnv, lookupEnv]
      split
      · rfl
      · exact ih k v key h

/-- Assigning a key keeps every present key present. -/
theorem lookupEnv_mapInsert_isSome : ∀ (m : EnvMap) (k v key : Str),
    (lookupEnv m key).isSome = true → (lookupEnv (mapInsert m k v) key).isSome = true := by
  intro m k v key h
  by_cases hk : key = k
  · subst hk; rw [lookupEnv_mapInsert_self]; rfl
  · rw [lookupEnv_mapInsert_ne m k v key hk]; exact h

/-- Assigning a fresh key appends the pair at the end of the list. -/
theorem mapInsert_eq_append : ∀ (m : EnvMap) (k v : Str), lookupEnv m k = none →
    mapInsert m k v = m ++ [(k, v)] := by
  intro m
  induction m with
  | nil => intro k v _; rfl
  | cons kv r ih =>
    intro k v h
    obtain ⟨k', v'⟩ := kv
    rw [lookupEnv] at h
    rw [mapInsert]
    split
    · rename_i he; rw [if_pos he] at h; cases h
    · rename_i hne
      rw [if_neg hne] at h
      rw [ih k v h, List.cons_append]

/-- Every entry of `mapInsert m k v` is the new pair or an old entry. -/
theorem mem_mapInsert : ∀ (m : EnvMap) (k v : Str) (kv : Str × Str),
    kv ∈ mapInsert m k v → kv = (k, v) ∨ kv ∈ m := by
  intro m
  induction m with
  | nil => intro k v kv h; simp [mapInsert] at h; simp [h]
  | cons e r ih =>
    intro k v kv h
    obtain ⟨k', v'⟩ := e
    rw [mapInsert] at h
    split at h
    · rcases List.mem_cons.1 h with h | h
      · exact Or.inl h
      · exact Or.inr (List.mem_cons_of_mem _ h)
    · rcases List.mem_cons.1 h with h | h
      · exact Or.inr (h ▸ List.mem_cons_self _ _)
      · rcases ih k v kv h with h | h
        · exact Or.inl h
        · exact Or.inr (List.mem_cons_of_mem _ h)

/-- If every entry of a map carries the same value and the key occurs,
lookup returns that value. -/
theorem lookupEnv_uniform : ∀ (m : EnvMap) (k v : Str),
    (∀ kv ∈ m, kv.2 = v) → (∃ kv ∈ m, kv.1 = k) → lookupEnv m k = some v := by
  intro m
  induction m with
  | nil => rintro k v _ ⟨kv, h, _⟩; cases h
  | cons e r ih =>
    rintro k v hv ⟨kv, hm, hk⟩
    obtain ⟨k', v'⟩ := e
    rw [lookupEnv]
    split
    · rename_i he
      have := hv (k', v') (List.mem_cons_self _ _)
      simp at this
      simp [this]
    · rename_i hne
      rcases List.mem_cons.1 hm with h | h
      · exfalso
        apply hne
        rw [← hk, h]
      · exact ih k v (fun kv hkv => hv kv (List.mem_cons_of_mem _ hkv)) ⟨kv, h, hk⟩

/-- The delta of an append of deltas applies sequentially. -/
theorem applyDelta_append (env d1 d2 : EnvMap) :
    applyDelta env (d1 ++ d2) = applyDelta (applyDelta env d1) d2 := by
  simp [applyDelta, List.foldl_append]

/-- Applying a delta ending in a non-deletion entry sets that key. -/
theorem lookupEnv_applyDelta_last (env d : EnvMap) (k v : Str) (hv : v ≠ str "-") :
    lookupEnv (applyDelta env (d ++ [(k, v)])) k = some v := by
  rw [applyDelta_append]
  show lookupEnv (if v = str "-" then _ else mapInsert (applyDelta env d) k v) k = some v
  rw [if_neg hv, lookupEnv_mapInsert_self]

/-- A nonempty suffix determines the last element of an append. -/
theorem getLast?_of_append_eq (a b c : Str) (hb : b ≠ []) (h : a ++ b = c) :
    c.getLast? = b.getLast? := by
  rw [← h]
  exact List.getLast?_append_of_ne_nil a hb

/-- None of the four binding suffixes turns a prefixed key into the
`CF_BOUND_SERVICES` key. -/
theorem bindingKey_ne_boundServicesKey (p sfx : Str)
    (h : sfx ∈ [str "_USER", str "_PASSWORD", str "_DATABASE", str "_LABEL"]) :
    p ++ sfx ≠ boundServicesKey := by
  simp only [List.mem_cons, List.not_mem_nil, or_false] at h
  intro he
  rcases h with h | h | h | h <;> subst h <;>
  · have hlast := getLast?_of_append_eq p _ boundServicesKey (by decide) he
    revert hlast
    decide

/-- The three credential suffixes and the label suffix are pairwise
distinguished by a key's last character: a key ending in one of them ends
in none of the others. -/
theorem goHasSuffix_disjoint (x a b : Str) (ha : goHasSuffix x a = true)
    (hb : goHasSuffix x b = true) (hna : a ≠ []) (hnb : b ≠ []) :
    a.getLast? = b.getLast? := by
  obtain ⟨y, rfl⟩ := (goHasSuffix_iff x a).1 ha
  obtain ⟨z, hz⟩ := (goHasSuffix_iff (y ++ a) b).1 hb
  have h1 : (y ++ a).getLast? = a.getLast? := List.getLast?_append_of_ne_nil y hna
  have h2 : (z ++ b).getLast? = b.getLast? := List.getLast?_append_of_ne_nil z hnb
  rw [← h1, hz, h2]

end Ocf


namespace Ocf

/-! ## Claim theorems: the platform-client layer -/

/-- C1: for every object type and name, `Exists` first checks whether the
combined command output contains the literal substring "not found" and, if
so, returns `(false, nil)` regardless of whether the command itself
reported an error; only otherwise does a command error yield
`(false, formattedError)`, and success with no "not found" in the output
yields `(true, nil)`. -/
theorem C1_exists_decision_order (objType name : Str) (r : CmdResult) :
    (IsSubstring (str "not found") r.out → ocExists objType name r = (false, none)) ∧
    (¬IsSubstring (str "not found") r.out → ∀ e, r.err = some e →
      ocExists objType name r = (false, some (existsErrMsg objType name r.out))) ∧
    (¬IsSubstring (str "not found") r.out → r.err = none →
      ocExists objType name r = (true, none)) := by
  refine ⟨?_, ?_, ?_⟩
  · intro h
    rw [ocExists, if_pos ((goContains_iff _ _).2 h)]
  · intro h e he
    rw [ocExists, if_neg (fun hc => h ((goContains_iff _ _).1 hc)), he]
  · intro h he
    rw [ocExists, if_neg (fun hc => h ((goContains_iff _ _).1 hc)), he]

/-- Witness for C1 at concrete inputs: an output containing "not found"
with a failing command still yields `(false, nil)`; a failing command with
other output yields the formatted error; a clean success yields
`(true, nil)`. -/
theorem C1_witness :
    ocExists (str "dc") (str "foo") ⟨str "not found", some (str "boom")⟩ = (false, none) ∧
    ocExists (str "dc") (str "foo") ⟨str "oops", some (str "boom")⟩ =
      (false, some (existsErrMsg (str "dc") (str "foo") (str "oops"))) ∧
    ocExists (str "dc") (str "foo") ⟨str "", none⟩ = (true, none) := by
  refine ⟨?_, ?_, ?_⟩
  · exact (C1_exists_decision_order (str "dc") (str "foo") _).1 ⟨[], [], by simp⟩
  · exact (C1_exists_decision_order (str "dc") (str "foo") _).2.1
      (fun h => absurd ((goContains_iff _ _).2 h) (by decide)) (str "boom") rfl
  · exact (C1_exists_decision_order (str "dc") (str "foo") _).2.2
      (fun h => absurd ((goContains_iff _ _).2 h) (by decide)) rfl

/-- C6: for every image, name, and environment map, `NewBuild` returns
success regardless of the spawned command's own exit status or error: its
returned error component is never non-nil, even when the external tool
fails. -/
theorem C6_newBuild_never_fails (image name : Str) (env : EnvMap) (r : CmdResult) (e : Str)
    (_he : r.err = some e) : (ocNewBuild image name env r).2.2 = none := rfl

/-- Witness for C6: build creation whose underlying command failed still
reports no error. -/
theorem C6_witness :
    (ocNewBuild (str "img") (str "foo") [] ⟨str "error: failed", some (str "exit 1")⟩).2.2 =
      none :=
  C6_newBuild_never_fails (str "img") (str "foo") [] _ (str "exit 1") rfl

/-- C7: every key/value pair of an environment map passed to `SetEnv` or
to build creation is encoded as the argument `KEY=VALUE`, except that a
pair whose value is exactly `"-"` is encoded as `KEY-` rather than
`KEY=-`. -/
theorem C7_env_encoding (objType name image bname : Str) (env : EnvMap) (k v : Str)
    (hm : (k, v) ∈ env) :
    envArg k v ∈ envToSlice env ∧
    (v = str "-" → envArg k v = k ++ str "-") ∧
    (v ≠ str "-" → envArg k v = k ++ str "=" ++ v) ∧
    envArg k v ∈ setEnvArgs objType name env ∧
    envArg k v ∈ newBuildArgs image bname env := by
  have h1 : envArg k v ∈ envToSlice env := by
    unfold envToSlice
    exact List.mem_map_of_mem _ hm
  refine ⟨h1, ?_, ?_, ?_, ?_⟩
  · intro hv; rw [envArg, if_pos hv, hv]
  · intro hv; rw [envArg, if_neg hv]
  · unfold setEnvArgs; exact List.mem_append_right _ h1
  · unfold newBuildArgs; exact List.mem_append_right _ h1

/-- Witness for C7: the deletion-marker pair is encoded as `DELETED-` and
the ordinary pair as `FOO=bar`, both appearing in the encoded argument
list. -/
theorem C7_witness :
    envArg (str "DELETED") (str "-") ∈
      envToSlice [(str "FOO", str "bar"), (str "DELETED", str "-")] ∧
    envArg (str "DELETED") (str "-") = str "DELETED" ++ str "-" ∧
    envArg (str "FOO") (str "bar") = str "FOO" ++ str "=" ++ str "bar" := by
  refine ⟨?_, ?_, ?_⟩
  · exact (C7_env_encoding (str "dc") (str "n") (str "i") (str "n") _ _ _ (by simp)).1
  · exact (C7_env_encoding (str "dc") (str "n") (str "i") (str "n")
      [(str "FOO", str "bar"), (str "DELETED", str "-")] _ _ (by simp)).2.1 rfl
  · exact (C7_env_encoding (str "dc") (str "n") (str "i") (str "n")
      [(str "FOO", str "bar"), (str "DELETED", str "-")] _ _ (by simp)).2.2.1 (by decide)

/-- Lines whose `=`-split does not have exactly two parts contribute
nothing to the parsed environment. -/
theorem parseLines_filter : ∀ (lines : List Str) (env : EnvMap),
    lines.foldl parseLineStep env =
      (lines.filter (fun line => (goSplit '=' line).length == 2)).foldl parseLineStep env := by
  intro lines
  induction lines with
  | nil => intro _; rfl
  | cons l r ih =>
    intro env
    by_cases hl : (goSplit '=' l).length = 2
    · rw [List.filter_cons_of_pos (by simp [hl]), List.foldl_cons, List.foldl_cons, ih]
    · have hstep : parseLineStep env l = env := by simp [parseLineStep, hl]
      rw [List.filter_cons_of_neg (by simp [hl]), List.foldl_cons, hstep, ih]

/-- C8: `Env` parses combined output line by line, one map entry per line
splitting into exactly two parts on `=`, silently skipping every other
line; `"FOO=bar\nBAZ=blah"` yields `{FOO: bar, BAZ: blah}` and a comment
line yields an empty map. -/
theorem C8_env_parsing :
    parseEnvOutput (str "FOO=bar\nBAZ=blah") =
      [(str "FOO", str "bar"), (str "BAZ", str "blah")] ∧
    parseEnvOutput (str "# deploymentconfigs foo, container foo") = [] ∧
    (∀ out : Str, parseEnvOutput out =
      parseLines ((goSplit '\n' out).filter (fun line => (goSplit '=' line).length == 2))) ∧
    (∀ (env : EnvMap) (line k v : Str), goSplit '=' line = [k, v] →
      parseLineStep env line = mapInsert env k v) := by
  refine ⟨by decide, by decide, ?_, ?_⟩
  · intro out
    exact parseLines_filter (goSplit '\n' out) []
  · intro env line k v h
    simp [parseLineStep, h]

/-- Witness for C8's entry rule at a concrete line. -/
theorem C8_witness :
    parseLineStep [] (str "FOO=bar") = mapInsert [] (str "FOO") (str "bar") :=
  C8_env_parsing.2.2.2 [] (str "FOO=bar") (str "FOO") (str "bar") (by decide)

/-- C9: when the build config already exists, `ensureBuildExists` compares
the current `BUILDPACK_URL` with the application's buildpack and issues a
write only if the value changed; an unchanged value issues no write and
leaves the environment unchanged. -/
theorem C9_buildpack_update (buildpack : Str) (currentEnv : EnvMap) :
    (lookupEnvD currentEnv buildpackUrlKey = buildpack →
      ensureBuildExistsWhenPresent buildpack currentEnv = [] ∧
      (ensureBuildExistsWhenPresent buildpack currentEnv).foldl applyDelta currentEnv =
        currentEnv) ∧
    (lookupEnvD currentEnv buildpackUrlKey ≠ buildpack →
      ensureBuildExistsWhenPresent buildpack currentEnv = [[(buildpackUrlKey, buildpack)]]) := by
  constructor
  · intro h
    rw [ensureBuildExistsWhenPresent, if_pos h]
    exact ⟨rfl, rfl⟩
  · intro h
    rw [ensureBuildExistsWhenPresent, if_neg h]

/-- Witness for C9: an unchanged buildpack issues no write; a changed one
issues exactly the single `BUILDPACK_URL` delta. -/
theorem C9_witness :
    ensureBuildExistsWhenPresent (str "bp") [(buildpackUrlKey, str "bp")] = [] ∧
    ensureBuildExistsWhenPresent (str "bp2") [(buildpackUrlKey, str "bp1")] =
      [[(buildpackUrlKey, str "bp2")]] :=
  ⟨((C9_buildpack_update (str "bp") [(buildpackUrlKey, str "bp")]).1 (by decide)).1,
   (C9_buildpack_update (str "bp2") [(buildpackUrlKey, str "bp1")]).2 (by decide)⟩

/-- C10: when a service environment line `KEY=VALUE` has a value itself
containing `=`, the credential-copying pass stores only the text between
the first and second `=` as the derived value: credential values
containing `=` are silently truncated. -/
theorem C10_addServiceEnv_truncates (env : List Str) (pfx suffix k a b : Str)
    (hk : '=' ∉ k) (ha : '=' ∉ a) :
    addServiceEnv env pfx suffix (k ++ '=' :: (a ++ '=' :: b)) =
      env ++ [pfx ++ suffix ++ str "=" ++ a] := by
  rw [addServiceEnv, goSplit_append_sep '=' k _ hk, goSplit_append_sep '=' a b ha]
  rfl

/-- Witness for C10: the line `POSTGRESQL_PASSWORD=a=b` stores only `a`,
dropping `=b`. -/
theorem C10_witness :
    addServiceEnv [] (str "RAILS_POSTGRES") (str "_PASSWORD") (str "POSTGRESQL_PASSWORD=a=b") =
      [str "RAILS_POSTGRES_PASSWORD=a"] := by
  have h := C10_addServiceEnv_truncates [] (str "RAILS_POSTGRES") (str "_PASSWORD")
    (str "POSTGRESQL_PASSWORD") (str "a") (str "b") (by decide) (by decide)
  have e1 : str "POSTGRESQL_PASSWORD" ++ '=' :: (str "a" ++ '=' :: str "b") =
      str "POSTGRESQL_PASSWORD=a=b" := by decide
  have e2 : ([] : List Str) ++ [str "RAILS_POSTGRES" ++ str "_PASSWORD" ++ str "=" ++ str "a"] =
      [str "RAILS_POSTGRES_PASSWORD=a"] := by decide
  rw [e1, e2] at h
  exact h

end Ocf

namespace Ocf

/-! ## Claim theorems: the service-binding environment computation -/

/-- Every entry appended by the credential pass for one line carries one of
the three credential suffixes under the service's prefix. -/
theorem svcLineEnv_form (env : List Str) (pfxs line e : Str)
    (h : e ∈ svcLineEnv env pfxs line) :
    e ∈ env ∨ ∃ sfx ∈ [str "_USER", str "_PASSWORD", str "_DATABASE"],
      ∃ val, e = pfxs ++ sfx ++ str "=" ++ val := by
  rw [svcLineEnv] at h
  split at h
  · rcases List.mem_append.1 h with h | h
    · exact Or.inl h
    · exact Or.inr ⟨str "_USER", by simp, _, by simpa using h⟩
  · split at h
    · rcases List.mem_append.1 h with h | h
      · exact Or.inl h
      · exact Or.inr ⟨str "_PASSWORD", by simp, _, by simpa using h⟩
    · split at h
      · rcases List.mem_append.1 h with h | h
        · exact Or.inl h
        · exact Or.inr ⟨str "_DATABASE", by simp, _, by simpa using h⟩
      · exact Or.inl h

/-- The line fold of `envForServices` only adds entries of credential
form. -/
theorem svcLineFold_form (pfxs : Str) : ∀ (lines : List Str) (acc : Str × List Str) (e : Str),
    e ∈ (lines.foldl (svcLineStep pfxs) acc).2 →
    e ∈ acc.2 ∨ ∃ sfx ∈ [str "_USER", str "_PASSWORD", str "_DATABASE"],
      ∃ val, e = pfxs ++ sfx ++ str "=" ++ val := by
  intro lines
  induction lines with
  | nil => intro acc e h; exact Or.inl h
  | cons l r ih =>
    intro acc e h
    rw [List.foldl_cons] at h
    rcases ih (svcLineStep pfxs acc l) e h with h | h
    · exact svcLineEnv_form acc.2 pfxs l e h
    · exact Or.inr h

/-- Every entry produced for one service carries one of the four binding
suffixes under the service's prefix. -/
theorem serviceEnvEntries_form (pfxs output e : Str) (h : e ∈ serviceEnvEntries pfxs output) :
    ∃ sfx ∈ [str "_USER", str "_PASSWORD", str "_DATABASE", str "_LABEL"],
      ∃ val, e = pfxs ++ sfx ++ str "=" ++ val := by
  rw [serviceEnvEntries] at h
  rcases List.mem_append.1 h with h | h
  · rcases svcLineFold_form pfxs (goSplit '\n' output) ([], []) e h with h | ⟨sfx, hs, val, hv⟩
    · cases h
    · refine ⟨sfx, ?_, val, hv⟩
      simp only [List.mem_cons] at hs ⊢
      tauto
  · rw [List.mem_singleton] at h
    refine ⟨str "_LABEL", by simp,
      (List.foldl (svcLineStep pfxs) ([], []) (goSplit '\n' output)).1, ?_⟩
    rw [h]
    have hl : str "_LABEL=" = str "_LABEL" ++ str "=" := by decide
    rw [hl]
    simp [List.append_assoc]

/-- Characterisation of a successful run of the service loop: the
collected names are the prefixes in order, and the produced entries extend
the accumulator with entries of binding form. -/
theorem envForServicesLoop_ok (run : Str → CmdResult) : ∀ (services env names env' names' : List Str),
    envForServicesLoop run services env names = .ok (env', names') →
    names' = names ++ services.map envPrefixOf ∧
    ∃ rest, env' = env ++ rest ∧
      ∀ e ∈ rest, ∃ s ∈ services, ∃ sfx ∈ [str "_USER", str "_PASSWORD", str "_DATABASE", str "_LABEL"],
        ∃ val, e = envPrefixOf s ++ sfx ++ str "=" ++ val := by
  intro services
  induction services with
  | nil =>
    intro env names env' names' h
    rw [envForServicesLoop] at h
    injection h with h
    injection h with h1 h2
    subst h1; subst h2
    exact ⟨by simp, [], by simp, by intro e he; cases he⟩
  | cons s rest ih =>
    intro env names env' names' h
    rw [envForServicesLoop] at h
    split at h
    · cases h
    · obtain ⟨hn, r2, hr2, hform⟩ :=
        ih (env ++ serviceEnvEntries (envPrefixOf s) (run s).out) (names ++ [envPrefixOf s])
          env' names' h
      refine ⟨by simp [hn], serviceEnvEntries (envPrefixOf s) (run s).out ++ r2,
        by simp [hr2], ?_⟩
      intro e he
      rcases List.mem_append.1 he with he | he
      · obtain ⟨sfx, hs, val, hv⟩ := serviceEnvEntries_form (envPrefixOf s) (run s).out e he
        exact ⟨s, List.mem_cons_self _ _, sfx, hs, val, hv⟩
      · obtain ⟨s', hs', hrest⟩ := hform e he
        exact ⟨s', List.mem_cons_of_mem _ hs', hrest⟩

/-- The run function of the C5 scenario: the bound `rails-postgres`
service's own deployment environment lists the three PostgreSQL
credential variables. -/
def railsPostgresRun : Str → CmdResult :=
  fun _ => ⟨str "POSTGRESQL_USER=foo\nPOSTGRESQL_PASSWORD=bar\nPOSTGRESQL_DATABASE=baz", none⟩

/-- C5: on the `rails-postgres` scenario the service-binding environment
computation returns exactly the four derived entries and the final
`CF_BOUND_SERVICES` entry; in general the computation returns no entries
for an empty service list, and on success the single `CF_BOUND_SERVICES`
entry (whose value is the space-joined prefix list) comes last, with no
other entry keyed `CF_BOUND_SERVICES`. -/
theorem C5_envForServiceBindings :
    (envForServices [str "rails-postgres"] railsPostgresRun =
      .ok [str "RAILS_POSTGRES_USER=foo", str "RAILS_POSTGRES_PASSWORD=bar",
           str "RAILS_POSTGRES_DATABASE=baz", str "RAILS_POSTGRES_LABEL=postgresql",
           str "CF_BOUND_SERVICES=RAILS_POSTGRES"]) ∧
    (∀ run : Str → CmdResult, envForServices [] run = .ok []) ∧
    (∀ (services : List Str) (run : Str → CmdResult) (env : List Str),
      services ≠ [] → (∀ s ∈ services, '=' ∉ envPrefixOf s) →
      envForServices services run = .ok env →
      env ≠ [] ∧
      env.getLast? = some (str "CF_BOUND_SERVICES=" ++ joinSpace (services.map envPrefixOf)) ∧
      ∀ e ∈ env.dropLast, (goSplit '=' e).headD [] ≠ boundServicesKey) := by
  refine ⟨by rfl, fun run => rfl, ?_⟩
  intro services run env hne hpfx h
  rw [envForServices, if_neg hne] at h
  split at h
  · cases h
  · rename_i env0 names0 hloop
    injection h with h
    subst h
    obtain ⟨hn, rest, hrest, hform⟩ := envForServicesLoop_ok run services [] [] env0 names0 hloop
    have hrest0 : env0 = rest := by simpa using hrest
    subst hrest0
    rw [hn]
    refine ⟨by simp, ?_, ?_⟩
    · rw [List.getLast?_append_of_ne_nil _ (by simp)]
      simp
    · intro e he
      rw [List.dropLast_concat] at he
      obtain ⟨s, hs, sfx, hsfx, val, hv⟩ := hform e he
      have hkey : goSplit '=' e = (envPrefixOf s ++ sfx) :: goSplit '=' val := by
        have hv' : e = (envPrefixOf s ++ sfx) ++ '=' :: val := by
          rw [hv]
          simp [str, List.append_assoc]
        rw [hv']
        apply goSplit_append_sep
        intro hmem
        rcases List.mem_append.1 hmem with hm | hm
        · exact hpfx s hs hm
        · simp only [List.mem_cons, List.not_mem_nil, or_false] at hsfx
          rcases hsfx with h' | h' | h' | h' <;> subst h' <;> revert hm <;> decide
      rw [hkey]
      show envPrefixOf s ++ sfx ≠ boundServicesKey
      exact bindingKey_ne_boundServicesKey (envPrefixOf s) sfx hsfx

/-- Witness for C5 on a one-service list: the final entry is the
`CF_BOUND_SERVICES` aggregate. -/
theorem C5_witness :
    [str "A_LABEL=", str "CF_BOUND_SERVICES=A"].getLast? =
      some (str "CF_BOUND_SERVICES=" ++ joinSpace ([str "a"].map envPrefixOf)) :=
  (C5_envForServiceBindings.2.2 [str "a"] (fun _ => ⟨[], none⟩)
    [str "A_LABEL=", str "CF_BOUND_SERVICES=A"] (by decide) (by decide) (by rfl)).2.1

end Ocf

namespace Ocf

/-! ## Claim theorems: service binding and unbinding -/

/-- The suffixed keys of `deriveBindingEnv` never collide on distinct
suffixes. -/
theorem bindingKey_inj (p a b : Str) (h : p ++ a = p ++ b) : a = b :=
  List.append_cancel_left h

/-- The credential fold never introduces the `CF_BOUND_SERVICES` key. -/
theorem lookupEnv_credsfold_boundKey_none (p : Str) : ∀ (src acc : EnvMap),
    lookupEnv acc boundServicesKey = none →
    lookupEnv (src.foldl (credStep p) acc) boundServicesKey = none := by
  intro src
  induction src with
  | nil => intro acc h; exact h
  | cons kv r ih =>
    intro acc h
    rw [List.foldl_cons]
    apply ih
    rw [credStep]
    have h1 : boundServicesKey ≠ p ++ str "_USER" :=
      fun hh => bindingKey_ne_boundServicesKey p (str "_USER") (by simp) hh.symm
    have h2 : boundServicesKey ≠ p ++ str "_PASSWORD" :=
      fun hh => bindingKey_ne_boundServicesKey p (str "_PASSWORD") (by simp) hh.symm
    have h3 : boundServicesKey ≠ p ++ str "_DATABASE" :=
      fun hh => bindingKey_ne_boundServicesKey p (str "_DATABASE") (by simp) hh.symm
    split
    · rw [lookupEnv_mapInsert_ne _ _ _ _ h1]; exact h
    · split
      · rw [lookupEnv_mapInsert_ne _ _ _ _ h2]; exact h
      · split
        · rw [lookupEnv_mapInsert_ne _ _ _ _ h3]; exact h
        · exact h

/-- The derived binding environment never carries the `CF_BOUND_SERVICES`
key. -/
theorem lookupEnv_derive_boundKey_none (src : EnvMap) (p : Str) :
    lookupEnv (deriveBindingEnv src p) boundServicesKey = none := by
  rw [deriveBindingEnv]
  rw [lookupEnv_mapInsert_ne _ _ _ _
    (fun hh => bindingKey_ne_boundServicesKey p (str "_LABEL") (by simp) hh.symm)]
  exact lookupEnv_credsfold_boundKey_none p src [] rfl

/-- The delta written by a successful `BindService`. -/
def bindDelta (sEnv appEnv : EnvMap) (service : Str) : EnvMap :=
  mapInsert (deriveBindingEnv sEnv (envPrefixOf service)) boundServicesKey
    (trimLeftSp (lookupEnvD appEnv boundServicesKey ++ ' ' :: envPrefixOf service))

/-- The tokens of the updated bound-services string are the old tokens
followed by the new prefix. -/
theorem tokens_newBound (bound p : Str) (hp : p ≠ []) (hsp : ' ' ∉ p) :
    tokens (trimLeftSp (bound ++ ' ' :: p)) = tokens bound ++ [p] := by
  rw [tokens_trimLeftSp, tokens_append, tokens_single p hp hsp]

/-- The updated bound-services string is never the deletion marker. -/
theorem newBound_ne_dash (bound p : Str) (hp : p ≠ []) (hsp : ' ' ∉ p) (hd : '-' ∉ p) :
    trimLeftSp (bound ++ ' ' :: p) ≠ str "-" := by
  intro h
  have ht := tokens_newBound bound p hp hsp
  rw [h] at ht
  have hv : tokens (str "-") = [str "-"] := by decide
  rw [hv] at ht
  have hg := congrArg List.getLast? ht
  rw [List.getLast?_append_of_ne_nil _ (by simp)] at hg
  have hpd : str "-" = p := by simpa using hg
  exact hd (hpd ▸ (by decide : '-' ∈ str "-"))

/-- On a clean guard, `BindService` succeeds with the single write of
`bindDelta`. -/
theorem bindService_ok_eq (sEnv appEnv : EnvMap) (service : Str)
    (hct : containsToken (lookupEnvD appEnv boundServicesKey) (envPrefixOf service) = false) :
    bindService true (.ok sEnv) appEnv service =
      ⟨none, applyDelta appEnv (bindDelta sEnv appEnv service), [bindDelta sEnv appEnv service]⟩ := by
  rw [bindService, if_neg (by simp)]
  rw [if_neg (by simp [hct])]
  rfl

/-- On a failing guard, `BindService` errors without writing. -/
theorem bindService_err_of_ct (sEnv appEnv : EnvMap) (service : Str)
    (hct : containsToken (lookupEnvD appEnv boundServicesKey) (envPrefixOf service) = true) :
    bindService true (.ok sEnv) appEnv service =
      ⟨some (str "service already bound"), appEnv, []⟩ := by
  rw [bindService, if_neg (by simp)]
  rw [if_pos hct]

/-- A successful `BindService` implies the guard was clean. -/
theorem bindService_ok_ct (sEnv appEnv : EnvMap) (service : Str)
    (hok : (bindService true (.ok sEnv) appEnv service).err = none) :
    containsToken (lookupEnvD appEnv boundServicesKey) (envPrefixOf service) = false := by
  by_cases hct : containsToken (lookupEnvD appEnv boundServicesKey) (envPrefixOf service) = true
  · rw [bindService_err_of_ct sEnv appEnv service hct] at hok
    cases hok
  · exact Bool.eq_false_iff.2 hct

/-- The delta of a successful bind decomposes with the `CF_BOUND_SERVICES`
entry appended last. -/
theorem bindDelta_eq_append (sEnv appEnv : EnvMap) (service : Str) :
    bindDelta sEnv appEnv service =
      deriveBindingEnv sEnv (envPrefixOf service) ++
        [(boundServicesKey,
          trimLeftSp (lookupEnvD appEnv boundServicesKey ++ ' ' :: envPrefixOf service))] := by
  rw [bindDelta, mapInsert_eq_append _ _ _ (lookupEnv_derive_boundKey_none sEnv (envPrefixOf service))]

/-- After a successful bind, the stored bound-services value is the
updated string. -/
theorem lookupEnvD_bind_env (sEnv appEnv : EnvMap) (service : Str)
    (hp : envPrefixOf service ≠ []) (hsp : ' ' ∉ envPrefixOf service)
    (hd : '-' ∉ envPrefixOf service) :
    lookupEnvD (applyDelta appEnv (bindDelta sEnv appEnv service)) boundServicesKey =
      trimLeftSp (lookupEnvD appEnv boundServicesKey ++ ' ' :: envPrefixOf service) := by
  rw [bindDelta_eq_append, lookupEnvD,
    lookupEnv_applyDelta_last _ _ _ _
      (newBound_ne_dash (lookupEnvD appEnv boundServicesKey) (envPrefixOf service) hp hsp hd)]
  rfl

/-- The new prefix is a token of the updated bound-services string. -/
theorem containsToken_newBound (bound p : Str) (hp : p ≠ []) (hsp : ' ' ∉ p) :
    containsToken (trimLeftSp (bound ++ ' ' :: p)) p = true := by
  rw [containsToken, tokens_newBound bound p hp hsp]
  exact (memStr_iff p _).2 (List.mem_append_right _ (List.mem_singleton.2 rfl))

/-- C3: if the application's current `CF_BOUND_SERVICES` value already
contains the service's prefix as a whitespace-delimited token,
`BindService` errors "service already bound" without writing; hence
binding the same service twice fails the second call, and a
duplicate-free token list stays duplicate-free across a successful
bind. -/
theorem C3_bind_guard (appEnv : EnvMap) (service : Str)
    (hp : envPrefixOf service ≠ []) (hsp : ' ' ∉ envPrefixOf service)
    (hd : '-' ∉ envPrefixOf service) :
    (∀ sEnv : EnvMap,
      containsToken (lookupEnvD appEnv boundServicesKey) (envPrefixOf service) = true →
      bindService true (.ok sEnv) appEnv service =
        ⟨some (str "service already bound"), appEnv, []⟩) ∧
    (∀ sEnv : EnvMap, (bindService true (.ok sEnv) appEnv service).err = none →
      ∀ sEnv2 : EnvMap,
        (bindService true (.ok sEnv2) (bindService true (.ok sEnv) appEnv service).env
          service).err = some (str "service already bound")) ∧
    ((tokens (lookupEnvD appEnv boundServicesKey)).Nodup →
      ∀ sEnv : EnvMap, (bindService true (.ok sEnv) appEnv service).err = none →
      (tokens (lookupEnvD (bindService true (.ok sEnv) appEnv service).env
        boundServicesKey)).Nodup) := by
  refine ⟨?_, ?_, ?_⟩
  · intro sEnv hct
    exact bindService_err_of_ct sEnv appEnv service hct
  · intro sEnv hok sEnv2
    have hct := bindService_ok_ct sEnv appEnv service hok
    rw [bindService_ok_eq sEnv appEnv service hct]
    have henv : lookupEnvD (applyDelta appEnv (bindDelta sEnv appEnv service)) boundServicesKey =
        trimLeftSp (lookupEnvD appEnv boundServicesKey ++ ' ' :: envPrefixOf service) :=
      lookupEnvD_bind_env sEnv appEnv service hp hsp hd
    rw [bindService_err_of_ct sEnv2 _ service
      (by rw [henv]; exact containsToken_newBound _ _ hp hsp)]
  · intro hnd sEnv hok
    have hct := bindService_ok_ct sEnv appEnv service hok
    rw [bindService_ok_eq sEnv appEnv service hct]
    show (tokens (lookupEnvD (applyDelta appEnv (bindDelta sEnv appEnv service))
      boundServicesKey)).Nodup
    rw [lookupEnvD_bind_env sEnv appEnv service hp hsp hd,
      tokens_newBound _ _ hp hsp]
    rw [List.nodup_append]
    refine ⟨hnd, by simp, ?_⟩
    rw [List.disjoint_singleton]
    intro ht
    have hms : memStr (envPrefixOf service) (tokens (lookupEnvD appEnv boundServicesKey)) = true :=
      (memStr_iff _ _).2 ht
    have hct' : memStr (envPrefixOf service) (tokens (lookupEnvD appEnv boundServicesKey)) =
        false := hct
    rw [hms] at hct'
    cases hct'

/-- Witness for C3: rebinding `test-service` right after a successful bind
fails with "service already bound". -/
theorem C3_witness :
    (bindService true (.ok [(str "MYSQL_USER", str "bar")])
      (bindService true (.ok [(str "MYSQL_USER", str "bar")])
        [(str "CF_BOUND_SERVICES", str "SOME_SERVICE")] (str "test-service")).env
      (str "test-service")).err = some (str "service already bound") :=
  (C3_bind_guard [(str "CF_BOUND_SERVICES", str "SOME_SERVICE")] (str "test-service")
    (by decide) (by decide) (by decide)).2.1
    [(str "MYSQL_USER", str "bar")] (by decide) [(str "MYSQL_USER", str "bar")]

end Ocf

namespace Ocf

/-- A key ending in one suffix cannot end in another whose last character
differs. -/
theorem suffix_excl (x a b : Str) (ha : goHasSuffix x a = true)
    (hna : a ≠ []) (hnb : b ≠ []) (hlast : a.getLast? ≠ b.getLast?) :
    goHasSuffix x b = false := by
  by_cases hb : goHasSuffix x b = true
  · exact absurd (goHasSuffix_disjoint x a b ha hb hna hnb) hlast
  · exact Bool.eq_false_iff.2 hb

/-- One credential step records the suffixed key exactly when it was
already recorded or the scanned source key carries that suffix. -/
theorem lookupEnv_credStep_isSome (p : Str) (acc : EnvMap) (kv : Str × Str) (sfx : Str)
    (hsfx : sfx ∈ [str "_USER", str "_PASSWORD", str "_DATABASE"]) :
    ((lookupEnv (credStep p acc kv) (p ++ sfx)).isSome = true ↔
      ((lookupEnv acc (p ++ sfx)).isSome = true ∨ goHasSuffix kv.1 sfx = true)) := by
  have hneq : ∀ a b : Str, a ≠ b → p ++ a ≠ p ++ b :=
    fun a b hab hh => hab (bindingKey_inj p a b hh)
  simp only [List.mem_cons, List.not_mem_nil, or_false] at hsfx
  rw [credStep]
  by_cases b1 : goHasSuffix kv.1 (str "_USER") = true
  · rw [if_pos b1]
    rcases hsfx with h | h | h <;> subst h
    · simp [lookupEnv_mapInsert_self, b1]
    · rw [lookupEnv_mapInsert_ne _ _ _ _ (hneq _ _ (by decide))]
      have hf := suffix_excl kv.1 (str "_USER") (str "_PASSWORD") b1 (by decide) (by decide)
        (by decide)
      simp [hf]
    · rw [lookupEnv_mapInsert_ne _ _ _ _ (hneq _ _ (by decide))]
      have hf := suffix_excl kv.1 (str "_USER") (str "_DATABASE") b1 (by decide) (by decide)
        (by decide)
      simp [hf]
  · rw [if_neg b1]
    by_cases b2 : goHasSuffix kv.1 (str "_PASSWORD") = true
    · rw [if_pos b2]
      rcases hsfx with h | h | h <;> subst h
      · rw [lookupEnv_mapInsert_ne _ _ _ _ (hneq _ _ (by decide))]
        simp [Bool.eq_false_iff.2 b1]
      · simp [lookupEnv_mapInsert_self, b2]
      · rw [lookupEnv_mapInsert_ne _ _ _ _ (hneq _ _ (by decide))]
        have hf := suffix_excl kv.1 (str "_PASSWORD") (str "_DATABASE") b2 (by decide)
          (by decide) (by decide)
        simp [hf]
    · rw [if_neg b2]
      by_cases b3 : goHasSuffix kv.1 (str "_DATABASE") = true
      · rw [if_pos b3]
        rcases hsfx with h | h | h <;> subst h
        · rw [lookupEnv_mapInsert_ne _ _ _ _ (hneq _ _ (by decide))]
          simp [Bool.eq_false_iff.2 b1]
        · rw [lookupEnv_mapInsert_ne _ _ _ _ (hneq _ _ (by decide))]
          simp [Bool.eq_false_iff.2 b2]
        · simp [lookupEnv_mapInsert_self, b3]
      · rw [if_neg b3]
        rcases hsfx with h | h | h <;> subst h
        · simp [Bool.eq_false_iff.2 b1]
        · simp [Bool.eq_false_iff.2 b2]
        · simp [Bool.eq_false_iff.2 b3]

/-- The credential fold records a suffixed key exactly when it was in the
accumulator or some source key carries that suffix. -/
theorem lookupEnv_credsfold_isSome (p sfx : Str)
    (hsfx : sfx ∈ [str "_USER", str "_PASSWORD", str "_DATABASE"]) :
    ∀ (src acc : EnvMap),
    ((lookupEnv (src.foldl (credStep p) acc) (p ++ sfx)).isSome = true ↔
      ((lookupEnv acc (p ++ sfx)).isSome = true ∨
        ∃ kv ∈ src, goHasSuffix kv.1 sfx = true)) := by
  intro src
  induction src with
  | nil => intro acc; simp
  | cons kv r ih =>
    intro acc
    rw [List.foldl_cons, ih (credStep p acc kv), lookupEnv_credStep_isSome p acc kv sfx hsfx]
    simp only [List.mem_cons, exists_eq_or_imp]
    tauto

/-- The derived binding environment carries a credential key exactly when
the service's own environment has a key with that suffix. -/
theorem lookupEnv_derive_isSome (src : EnvMap) (p sfx : Str)
    (hsfx : sfx ∈ [str "_USER", str "_PASSWORD", str "_DATABASE"]) :
    ((lookupEnv (deriveBindingEnv src p) (p ++ sfx)).isSome = true ↔
      ∃ kv ∈ src, goHasSuffix kv.1 sfx = true) := by
  have hne : p ++ sfx ≠ p ++ str "_LABEL" := by
    intro hh
    have heq := bindingKey_inj p _ _ hh
    simp only [List.mem_cons, List.not_mem_nil, or_false] at hsfx
    rcases hsfx with h | h | h <;> subst h <;> exact absurd heq (by decide)
  rw [deriveBindingEnv, lookupEnv_mapInsert_ne _ _ _ _ hne,
    lookupEnv_credsfold_isSome p sfx hsfx src []]
  simp [lookupEnv]

/-- The derived binding environment always carries the label key. -/
theorem lookupEnv_derive_label (src : EnvMap) (p : Str) :
    lookupEnv (deriveBindingEnv src p) (p ++ str "_LABEL") = some (labelOf src) := by
  rw [deriveBindingEnv, lookupEnv_mapInsert_self]

/-- C2 (amended): after every successfully completed `BindService` the
whole binding delta is carried in a single write; that delta makes the
prefix a whitespace-delimited token of the updated `CF_BOUND_SERVICES`
value and always contains the `{prefix}_LABEL` key, while it contains
`{prefix}_USER` / `_PASSWORD` / `_DATABASE` exactly when the service's
own environment has a key ending in the corresponding suffix. -/
theorem C2_bind_single_write (sEnv appEnv : EnvMap) (service : Str)
    (hp : envPrefixOf service ≠ []) (hsp : ' ' ∉ envPrefixOf service)
    (hok : (bindService true (.ok sEnv) appEnv service).err = none) :
    (bindService true (.ok sEnv) appEnv service).writes = [bindDelta sEnv appEnv service] ∧
    containsToken (lookupEnvD (bindDelta sEnv appEnv service) boundServicesKey)
      (envPrefixOf service) = true ∧
    (lookupEnv (bindDelta sEnv appEnv service)
      (envPrefixOf service ++ str "_LABEL")).isSome = true ∧
    ∀ sfx ∈ [str "_USER", str "_PASSWORD", str "_DATABASE"],
      ((lookupEnv (bindDelta sEnv appEnv service)
        (envPrefixOf service ++ sfx)).isSome = true ↔
        ∃ kv ∈ sEnv, goHasSuffix kv.1 sfx = true) := by
  have hct := bindService_ok_ct sEnv appEnv service hok
  have hCF : lookupEnvD (bindDelta sEnv appEnv service) boundServicesKey =
      trimLeftSp (lookupEnvD appEnv boundServicesKey ++ ' ' :: envPrefixOf service) := by
    rw [bindDelta, lookupEnvD, lookupEnv_mapInsert_self]
    rfl
  refine ⟨?_, ?_, ?_, ?_⟩
  · rw [bindService_ok_eq sEnv appEnv service hct]
  · rw [hCF]
    exact containsToken_newBound _ _ hp hsp
  · have hlk : lookupEnv (bindDelta sEnv appEnv service)
        (envPrefixOf service ++ str "_LABEL") = some (labelOf sEnv) := by
      rw [bindDelta, lookupEnv_mapInsert_ne _ _ _ _
        (bindingKey_ne_boundServicesKey (envPrefixOf service) (str "_LABEL") (by simp))]
      exact lookupEnv_derive_label sEnv (envPrefixOf service)
    rw [hlk]
    rfl
  · intro sfx hsfx
    have hneCF : envPrefixOf service ++ sfx ≠ boundServicesKey := by
      apply bindingKey_ne_boundServicesKey
      simp only [List.mem_cons, List.not_mem_nil, or_false] at hsfx ⊢
      tauto
    rw [bindDelta, lookupEnv_mapInsert_ne _ _ _ _ hneCF]
    exact lookupEnv_derive_isSome sEnv (envPrefixOf service) sfx hsfx

/-- Counterexample to C2 as stated: binding a service whose own
environment exposes only `MYSQL_USER` completes successfully and makes
`TEST_SERVICE` a token of `CF_BOUND_SERVICES`, yet the key
`TEST_SERVICE_PASSWORD` is absent from the resulting environment, so "a
prefix is a token iff all four per-binding keys are present" fails. -/
theorem C2_counterexample :
    (bindService true (.ok [(str "MYSQL_USER", str "bar")])
      [(str "CF_BOUND_SERVICES", str "SOME_SERVICE")] (str "test-service")).err = none ∧
    containsToken
      (lookupEnvD (bindService true (.ok [(str "MYSQL_USER", str "bar")])
        [(str "CF_BOUND_SERVICES", str "SOME_SERVICE")] (str "test-service")).env
        boundServicesKey)
      (str "TEST_SERVICE") = true ∧
    lookupEnv (bindService true (.ok [(str "MYSQL_USER", str "bar")])
      [(str "CF_BOUND_SERVICES", str "SOME_SERVICE")] (str "test-service")).env
      (str "TEST_SERVICE_PASSWORD") = none := by decide

/-- Witness for C2's amended theorem at the repository's own test input. -/
theorem C2_witness :
    containsToken (lookupEnvD (bindDelta [(str "MYSQL_USER", str "bar")]
      [(str "CF_BOUND_SERVICES", str "SOME_SERVICE")] (str "test-service")) boundServicesKey)
      (envPrefixOf (str "test-service")) = true :=
  (C2_bind_single_write [(str "MYSQL_USER", str "bar")]
    [(str "CF_BOUND_SERVICES", str "SOME_SERVICE")] (str "test-service")
    (by decide) (by decide) (by decide)).2.1

end Ocf

namespace Ocf

/-- The delta written by a successful `UnbindService`. -/
def unbindDelta (appEnv : EnvMap) (service : Str) : EnvMap :=
  mapInsert (appEnv.filterMap
      (fun kv => if goHasPrefix (envPrefixOf service) kv.1 then some (kv.1, str "-") else none))
    boundServicesKey
    (trimSp (goReplaceAll (envPrefixOf service) [] (lookupEnvD appEnv boundServicesKey)))

/-- C4: when the prefix is not found in the current `CF_BOUND_SERVICES`
value, `UnbindService` errors "service not bound", issues no write and
leaves the environment unchanged; when it is present, the single written
delta sets every existing key starting with the prefix to the deletion
marker and sets `CF_BOUND_SERVICES` to the prefix-stripped, trimmed
value. -/
theorem C4_unbind (appEnv : EnvMap) (service : Str) :
    (goContains (lookupEnvD appEnv boundServicesKey) (envPrefixOf service) = false →
      unbindService true appEnv service = ⟨some (str "service not bound"), appEnv, []⟩) ∧
    (goContains (lookupEnvD appEnv boundServicesKey) (envPrefixOf service) = true →
      goHasPrefix (envPrefixOf service) boundServicesKey = false →
      (unbindService true appEnv service).writes = [unbindDelta appEnv service] ∧
      (∀ kv ∈ appEnv, goHasPrefix (envPrefixOf service) kv.1 = true →
        lookupEnv (unbindDelta appEnv service) kv.1 = some (str "-")) ∧
      lookupEnv (unbindDelta appEnv service) boundServicesKey =
        some (trimSp (goReplaceAll (envPrefixOf service) []
          (lookupEnvD appEnv boundServicesKey))) ∧
      (∀ kv ∈ unbindDelta appEnv service, kv.1 = boundServicesKey ∨
        (goHasPrefix (envPrefixOf service) kv.1 = true ∧ kv.2 = str "-"))) := by
  constructor
  · intro hn
    rw [unbindService, if_neg (by simp), if_pos (by simp [hn])]
  · intro hc hcf
    have hrw : unbindService true appEnv service =
        ⟨none, applyDelta appEnv (unbindDelta appEnv service), [unbindDelta appEnv service]⟩ := by
      rw [unbindService, if_neg (by simp), if_neg (by simp [hc])]
      rfl
    refine ⟨by rw [hrw], ?_, ?_, ?_⟩
    · intro kv hm hpf
      have hne : kv.1 ≠ boundServicesKey := by
        intro he
        rw [he] at hpf
        rw [hpf] at hcf
        cases hcf
      rw [unbindDelta, lookupEnv_mapInsert_ne _ _ _ _ hne]
      apply lookupEnv_uniform
      · intro e hemem
        obtain ⟨kv0, hkv0, hf⟩ := List.mem_filterMap.1 hemem
        by_cases hpf0 : goHasPrefix (envPrefixOf service) kv0.1 = true
        · rw [if_pos hpf0] at hf
          injection hf with hf
          rw [← hf]
        · rw [if_neg hpf0] at hf
          cases hf
      · refine ⟨(kv.1, str "-"), List.mem_filterMap.2 ⟨kv, hm, ?_⟩, rfl⟩
        rw [if_pos hpf]
    · rw [unbindDelta, lookupEnv_mapInsert_self]
    · intro kv hm
      rcases mem_mapInsert _ _ _ _ hm with h | h
      · exact Or.inl (by rw [h])
      · obtain ⟨kv0, hkv0, hf⟩ := List.mem_filterMap.1 h
        by_cases hpf0 : goHasPrefix (envPrefixOf service) kv0.1 = true
        · rw [if_pos hpf0] at hf
          injection hf with hf
          exact Or.inr ⟨by rw [← hf]; exact hpf0, by rw [← hf]⟩
        · rw [if_neg hpf0] at hf
          cases hf

/-- Witness for C4 at the repository's own test inputs: an unbound prefix
errors without writing; a bound one issues the single deletion delta. -/
theorem C4_witness :
    unbindService true [(str "CF_BOUND_SERVICES", str "SOME_SERVICE")] (str "test-service") =
      ⟨some (str "service not bound"), [(str "CF_BOUND_SERVICES", str "SOME_SERVICE")], []⟩ ∧
    (unbindService true
      [(str "FOO", str "bar"), (str "CF_BOUND_SERVICES", str "TEST_SERVICE SOME_SERVICE"),
       (str "TEST_SERVICE_LABEL", str "test-service"),
       (str "TEST_SERVICE_DATABASE", str "test-database")] (str "test-service")).writes =
      [unbindDelta
        [(str "FOO", str "bar"), (str "CF_BOUND_SERVICES", str "TEST_SERVICE SOME_SERVICE"),
         (str "TEST_SERVICE_LABEL", str "test-service"),
         (str "TEST_SERVICE_DATABASE", str "test-database")] (str "test-service")] :=
  ⟨(C4_unbind [(str "CF_BOUND_SERVICES", str "SOME_SERVICE")] (str "test-service")).1 (by decide),
   ((C4_unbind _ (str "test-service")).2 (by decide) (by decide)).1⟩

end Ocf
